import Mathlib

/-
Verification development for the RoachJS core: the radix-tree router
(src/router.js) and the middleware chain (src/middleware.js, re-exported
next to src/errors.js).

The embedding is shallow and executable:
* Path segments and radix-tree edge labels are lists of characters
  (`Seg := List Char`); URL paths and HTTP methods stay `String`.
* JavaScript objects used as string-keyed maps (the `params` object of
  `_search`, `Map` instances for `handlers` and `staticRoutes`) are
  association lists, with `setParam` / `delParam` mirroring property
  assignment and `delete`.
* Handlers and middleware functions are opaque to the router, so they are
  represented by numeric identifiers.
* Throwing JavaScript methods return an `Option RouterError` paired with
  the post-call state, so that mutations performed before a throw remain
  observable, exactly as they do on the mutable JS objects.
* The middleware executor's `next` continuation is modelled as a
  fuel-indexed interpreter over middleware scripts (finite lists of
  observable actions); fuel only bounds the recursion depth of `next`,
  which is unbounded in the JS source, and every theorem below either
  holds for all fuel values or evaluates a concrete run with ample fuel.
-/

namespace Roach

/-- Path segment or edge label: a list of characters. -/
abbrev Seg := List Char

/-- Registered route entry, `{handler, middleware}` in router.js. -/
structure RouteEntry where
  handler : Nat
  middleware : List Nat
deriving DecidableEq, Repr

/-- RadixNode of router.js (constructor, lines 20-46): edge label, static
children, method→entry map, parameter name, wildcard flag, and the single
parametric and wildcard children. -/
inductive RadixNode where
  | mk : (label : Seg) → (children : List RadixNode) →
         (handlers : List (String × RouteEntry)) →
         (paramName : Option Seg) → (isWildcard : Bool) →
         (paramChild : Option RadixNode) → (wildcardChild : Option RadixNode) → RadixNode

/-- Edge label accessor. -/
def RadixNode.label : RadixNode → Seg
  | .mk l _ _ _ _ _ _ => l

/-- Static children accessor. -/
def RadixNode.children : RadixNode → List RadixNode
  | .mk _ c _ _ _ _ _ => c

/-- Method-to-entry map accessor. -/
def RadixNode.handlers : RadixNode → List (String × RouteEntry)
  | .mk _ _ h _ _ _ _ => h

/-- Parameter name accessor. -/
def RadixNode.paramName : RadixNode → Option Seg
  | .mk _ _ _ pn _ _ _ => pn

/-- Parametric child accessor. -/
def RadixNode.paramChild : RadixNode → Option RadixNode
  | .mk _ _ _ _ _ pc _ => pc

/-- Wildcard child accessor. -/
def RadixNode.wildcardChild : RadixNode → Option RadixNode
  | .mk _ _ _ _ _ _ wc => wc

/-- Replace the children list (models `parent.children[i] = ...` splices). -/
def RadixNode.withChildren : RadixNode → List RadixNode → RadixNode
  | .mk l _ h pn iw pc wc, ch => .mk l ch h pn iw pc wc

/-- Replace the edge label (models `child.label = child.label.slice(commonLen)`). -/
def RadixNode.relabel : RadixNode → Seg → RadixNode
  | .mk _ ch h pn iw pc wc, l => .mk l ch h pn iw pc wc

/-- Lookup in a string-keyed association list (models `Map.get`). -/
def lookupStr {α : Type} (k : String) : List (String × α) → Option α
  | [] => none
  | (k', v) :: rest => if k' = k then some v else lookupStr k rest

/-- Match result of `Router.find`: handler, extracted params, middleware. -/
structure MatchResult where
  handler : Nat
  params : List (Seg × Seg)
  middleware : List Nat
deriving DecidableEq, Repr

/-- The `params` object of `_search`: an insertion-ordered string-keyed map. -/
abbrev Params := List (Seg × Seg)

/-- Property assignment `params[k] = v`: overwrite in place, else append. -/
def setParam (p : Params) (k v : Seg) : Params :=
  match p with
  | [] => [(k, v)]
  | (k', v') :: rest => if k' = k then (k', v) :: rest else (k', v') :: setParam rest k v

/-- Property deletion `delete params[k]`. -/
def delParam (p : Params) (k : Seg) : Params :=
  match p with
  | [] => []
  | (k', v') :: rest => if k' = k then delParam rest k else (k', v') :: delParam rest k

/-- Lookup of a key in the params map. -/
def lookupParam (k : Seg) : Params → Option Seg
  | [] => none
  | (k', v) :: rest => if k' = k then some v else lookupParam k rest

/-- Router errors of errors.js: `InvalidRouteError(path, reason)` and
`RouteConflictError(method, path)`. -/
inductive RouterError where
  | invalidRoute (path reason : String)
  | routeConflict (method path : String)
deriving DecidableEq, Repr

/-- Length of the common character work shared at the start of two labels
(`Router._commonPrefixLength`, router.js lines 313-318). -/
def commonPrefixLength : Seg → Seg → Nat
  | a :: as, b :: bs => if a = b then commonPrefixLength as bs + 1 else 0
  | _, _ => 0

/-- Accumulator loop computing the maximal runs of non-slash characters of a
path; equivalent to `path.split('/').filter(Boolean)` for the single-character
separator `/`. -/
def splitAux : List Char → Seg → List Seg
  | [], acc => if acc = [] then [] else [acc.reverse]
  | c :: cs, acc =>
    if c = '/' then
      if acc = [] then splitAux cs []
      else acc.reverse :: splitAux cs []
    else splitAux cs (c :: acc)

/-- `Router._splitPath` (router.js lines 302-304). -/
def splitPath (path : String) : List Seg := splitAux path.data []

/-- `method.toUpperCase()` on the ASCII method names the router receives. -/
def upperStr (s : String) : String := ⟨s.data.map Char.toUpper⟩

/-- JavaScript `s.startsWith(pre)`. -/
def jsStartsWith (s pre : String) : Bool := pre.data.isPrefixOf s.data

/-- JavaScript `s.endsWith(suf)`. -/
def jsEndsWith (s suf : String) : Bool := suf.data.isSuffixOf s.data

/-- JavaScript `s.includes(c)` for a single character. -/
def strContains (s : String) (c : Char) : Bool := s.data.contains c

/-- The wildcard block of `_search` (router.js lines 257-265): bind `*` to
the remaining segments joined with `/` and return the wildcard child's entry
for the method, if any — reading only the wildcard node's handlers map, never
recursing into its subtree. -/
def wildcardStep (wcOpt : Option RadixNode) (seg : Seg) (rest : List Seg) (p : Params)
    (m : String) : Option MatchResult × Params :=
  match wcOpt with
  | some wc =>
    let wv := List.intercalate ['/'] (seg :: rest)
    let p5 := setParam p ['*'] wv
    (match lookupStr m wc.handlers with
     | some route => (some ⟨route.handler, p5, route.middleware⟩, p5)
     | none => (none, delParam p5 ['*']))
  | none => (none, p)

/-- The `for (const child of node.children)` loop of `_search` combined with
`Router._matchStatic` (router.js lines 280-289), abstracted over the
one-segment-deeper recursive call `f`: a child matches only when its whole
compressed label equals the current segment, consuming one segment; the
mutable `params` object is threaded through failed branches. -/
def searchChildrenWith (f : RadixNode → Params → Option MatchResult × Params) :
    List RadixNode → Seg → Params → Option MatchResult × Params
  | [], _, p => (none, p)
  | c :: cs', seg, p =>
    if c.label = seg then
      let r := f c p
      if r.1.isSome then r else searchChildrenWith f cs' seg r.2
    else searchChildrenWith f cs' seg p

/-- The parametric block of `_search` (router.js lines 250-255), abstracted
over the one-segment-deeper recursive call `f`: bind the parameter name to
the current segment, recurse, and remove the binding again when the deeper
search fails. -/
def searchParamWith (f : RadixNode → Params → Option MatchResult × Params) :
    Option RadixNode → Seg → Params → Option MatchResult × Params
  | none, _, p => (none, p)
  | some pc, seg, p =>
    let pname := pc.paramName.getD []
    let r := f pc (setParam p pname seg)
    if r.1.isSome then r else (none, delParam r.2 pname)

/-- `Router._search` (router.js lines 231-268): recursive tree search that
tries static children first, then the parametric child, then the wildcard
child, threading the mutable `params` object through failed branches. The
result pairs the returned match (with its `{ ...params }` snapshot) with the
`params` object as left behind by the call. Structurally recursive on the
list of remaining path segments. -/
def search : RadixNode → List Seg → Params → String → Option MatchResult × Params
  | .mk _ _ hnd _ _ _ _, [], p, m =>
    (match lookupStr m hnd with
     | some route => (some ⟨route.handler, p, route.middleware⟩, p)
     | none => (none, p))
  | .mk _ ch _ _ _ pcOpt wcOpt, seg :: rest, p, m =>
    let r1 := searchChildrenWith (fun c q => search c rest q m) ch seg p
    if r1.1.isSome then r1
    else
      let r2 := searchParamWith (fun c q => search c rest q m) pcOpt seg r1.2
      if r2.1.isSome then r2
      else wildcardStep wcOpt seg rest r2.2 m
termination_by structural _ rem _ _ => rem

/-- The children loop of `_search` at a given list of remaining segments. -/
def searchChildren (cs : List RadixNode) (seg : Seg) (rest : List Seg) (p : Params)
    (m : String) : Option MatchResult × Params :=
  searchChildrenWith (fun c q => search c rest q m) cs seg p

/-- The parametric block of `_search` at a given list of remaining segments. -/
def searchParam (pcOpt : Option RadixNode) (seg : Seg) (rest : List Seg) (p : Params)
    (m : String) : Option MatchResult × Params :=
  searchParamWith (fun c q => search c rest q m) pcOpt seg p

/-- Children loop of the static-only walk (below), abstracted over the
one-segment-deeper recursive call. -/
def staticSearchChildrenWith (f : RadixNode → Option RouteEntry) :
    List RadixNode → Seg → Option RouteEntry
  | [], _ => none
  | c :: cs', seg =>
    if c.label = seg then
      match f c with
      | some e => some e
      | none => staticSearchChildrenWith f cs' seg
    else staticSearchChildrenWith f cs' seg

/-- Specification-side definition ("static-only walk"): the restriction of
`_search` that uses only exact static-label children, never the parametric or
wildcard child, and hence binds no parameters. Used to express the matching
precedence of claim C4: whenever this walk finds an entry, the full search
must return exactly it. -/
def staticSearch : RadixNode → List Seg → String → Option RouteEntry
  | .mk _ _ hnd _ _ _ _, [], m => lookupStr m hnd
  | .mk _ ch _ _ _ _ _, seg :: rest, m =>
    staticSearchChildrenWith (fun c => staticSearch c rest m) ch seg
termination_by structural _ rem _ => rem

/-- Children loop of the static-only walk at a given list of remaining
segments. -/
def staticSearchChildren (cs : List RadixNode) (seg : Seg) (rest : List Seg)
    (m : String) : Option RouteEntry :=
  staticSearchChildrenWith (fun c => staticSearch c rest m) cs seg

theorem sizeOf_children_lt (n : RadixNode) : sizeOf n.children < sizeOf n := by
  cases n with
  | mk l ch h pn iw pc wc => simp [RadixNode.children]; omega

theorem sizeOf_radixList_pos (cs : List RadixNode) : 0 < sizeOf cs := by
  cases cs <;> simp_arith

mutual

/-- The `for` loop of `_insertStatic` over the existing children, abstracted
over the continuation `f` that inserts the remaining path segments into a
(possibly brand-new) node: `none` means no child shared a prefix (the caller
appends a brand-new node, router.js lines 184-186), otherwise the error
outcome and the updated children list are returned. The four cases mirror
router.js lines 157-181: skip on zero common prefix, exact reuse, descend on
a fully consumed child label, and the node split. -/
def insChildrenWith (f : RadixNode → Option RouterError × RadixNode) :
    List RadixNode → Seg → Option (Option RouterError × List RadixNode)
  | [], _ => none
  | c :: cs, seg =>
    let cl := commonPrefixLength c.label seg
    if cl = 0 then
      (insChildrenWith f cs seg).map (fun r => (r.1, c :: r.2))
    else if cl = c.label.length ∧ cl = seg.length then
      let r := f c
      some (r.1, r.2 :: cs)
    else if cl = c.label.length then
      let r := insertStaticWith f c (seg.drop cl)
      some (r.1, r.2 :: cs)
    else
      let childShrunk := c.relabel (c.label.drop cl)
      if cl = seg.length then
        let splitNode : RadixNode := .mk (c.label.take cl) [childShrunk] [] none false none none
        let r := f splitNode
        some (r.1, r.2 :: cs)
      else
        let newNode : RadixNode := .mk (seg.drop cl) [] [] none false none none
        let r := f newNode
        some (r.1, (.mk (c.label.take cl) [childShrunk, r.2] [] none false none none) :: cs)

/-- `Router._insertStatic` (router.js lines 152-187) abstracted over the
continuation `f` on the terminal node of the current segment: the terminal
node the JS function returns is immediately given to `f`, and the updated
child is spliced back into the parent. -/
def insertStaticWith (f : RadixNode → Option RouterError × RadixNode) :
    RadixNode → Seg → Option RouterError × RadixNode
  | .mk l ch hnd pn iw pcOpt wcOpt, seg =>
    match insChildrenWith f ch seg with
    | some r => (r.1, (RadixNode.mk l ch hnd pn iw pcOpt wcOpt).withChildren r.2)
    | none =>
      let r := f (.mk seg [] [] none false none none)
      (r.1, (RadixNode.mk l ch hnd pn iw pcOpt wcOpt).withChildren (ch ++ [r.2]))

end

/-- The segment loop of `Router.add` (router.js lines 104-135) together with
the terminal-handler store (lines 137-141), rendered as a function from the
current node and the remaining segments to the possibly-thrown error and the
updated node. Mutations performed before a throw (new parametric, wildcard or
static nodes, edge splits) are kept in the returned node, exactly as they
persist on the mutable JS tree. Structurally recursive on the list of
remaining segments. -/
def insertSegs : RadixNode → List Seg → String → String → RouteEntry →
    Option RouterError × RadixNode
  | .mk l ch hnd pn iw pcOpt wcOpt, [], m, path, e =>
    if (lookupStr m hnd).isSome then
      (some (.routeConflict m path), .mk l ch hnd pn iw pcOpt wcOpt)
    else (none, .mk l ch (hnd ++ [(m, e)]) pn iw pcOpt wcOpt)
  | .mk l ch hnd pn iw pcOpt wcOpt, seg :: rest, m, path, e =>
    match seg with
    | ':' :: pname =>
      if pname = [] then
        (some (.invalidRoute path "Parameter name cannot be empty"), .mk l ch hnd pn iw pcOpt wcOpt)
      else
        match pcOpt with
        | none =>
          let child : RadixNode := .mk seg [] [] (some pname) false none none
          let r := insertSegs child rest m path e
          (r.1, .mk l ch hnd pn iw (some r.2) wcOpt)
        | some pc =>
          if pc.paramName ≠ some pname then
            (some (.routeConflict m path), .mk l ch hnd pn iw (some pc) wcOpt)
          else
            let r := insertSegs pc rest m path e
            (r.1, .mk l ch hnd pn iw (some r.2) wcOpt)
    | ['*'] =>
      if rest ≠ [] then
        (some (.invalidRoute path "Wildcard (*) must be the last segment"),
          .mk l ch hnd pn iw pcOpt wcOpt)
      else
        let wc := wcOpt.getD (.mk ['*'] [] [] none true none none)
        let r := insertSegs wc rest m path e
        (r.1, .mk l ch hnd pn iw pcOpt (some r.2))
    | _ => insertStaticWith (fun n => insertSegs n rest m path e)
        (.mk l ch hnd pn iw pcOpt wcOpt) seg
termination_by structural _ segs _ _ _ => segs

/-- `Router._insertStatic` fused with the continuation of `add`'s loop on the
remaining path segments. -/
def insertStaticSegs (parent : RadixNode) (seg : Seg) (rest : List Seg) (m path : String)
    (e : RouteEntry) : Option RouterError × RadixNode :=
  insertStaticWith (fun n => insertSegs n rest m path e) parent seg

/-- The children loop of `_insertStatic` at a given list of remaining path
segments. -/
def insChildren (cs : List RadixNode) (seg : Seg) (rest : List Seg) (m path : String)
    (e : RouteEntry) : Option (Option RouterError × List RadixNode) :=
  insChildrenWith (fun n => insertSegs n rest m path e) cs seg

/-- Router state: the radix-tree root plus the static-route cache, a map
keyed by the string `method + ":" + path` (router.js lines 58-65). -/
structure Router where
  root : RadixNode
  staticRoutes : List (String × RouteEntry)

/-- A freshly constructed `new Router()`. -/
def emptyRouter : Router :=
  { root := .mk [] [] [] none false none none, staticRoutes := [] }

/-- `Router.add` (router.js lines 83-142). The result pairs the thrown error
(if any) with the router state after the call; on a throw the state reflects
every mutation performed before it, as on the mutable JS router. -/
def Router.add (r : Router) (method path : String) (middleware : List Nat) (handler : Nat) :
    Option RouterError × Router :=
  let m := upperStr method
  if jsStartsWith path "/" = false then
    (some (.invalidRoute path "Route must start with \"/\""), r)
  else
    let isStatic := !(strContains path ':') && !(strContains path '*')
    let afterCache : Option RouterError × Router :=
      if isStatic then
        let key := m ++ ":" ++ path
        if (lookupStr key r.staticRoutes).isSome then
          (some (.routeConflict m path), r)
        else (none, { r with staticRoutes := r.staticRoutes ++ [(key, ⟨handler, middleware⟩)] })
      else (none, r)
    if afterCache.1.isSome then afterCache
    else
      let r1 := afterCache.2
      let ins := insertSegs r1.root (splitPath path) m path ⟨handler, middleware⟩
      (ins.1, { r1 with root := ins.2 })

/-- `Router.find` (router.js lines 204-218): static cache first, then the
recursive tree search with a fresh empty `params` object. -/
def Router.find (r : Router) (method path : String) : Option MatchResult :=
  let m := upperStr method
  match lookupStr (m ++ ":" ++ path) r.staticRoutes with
  | some e => some ⟨e.handler, [], e.middleware⟩
  | none => (search r.root (splitPath path) [] m).1

/-- The tree-walk part of `Router.find` on its own, bypassing the static
cache: the recursive `_search` run exactly as `find` would invoke it. -/
def Router.findTree (r : Router) (method path : String) : Option MatchResult :=
  (search r.root (splitPath path) [] (upperStr method)).1

/-- Well-formedness of a tree node used by the precedence theorem: static
sibling edge labels are pairwise distinct at every node (a consequence of
prefix-compressed insertion, which never creates two siblings sharing a
non-empty common prefix). -/
def labelsDistinct : List Seg → Bool
  | [] => true
  | l :: ls => (!(ls.contains l)) && labelsDistinct ls

mutual

/-- Recursive well-formedness over the whole tree. -/
def wfNode : RadixNode → Bool
  | .mk _ ch _ _ _ pcOpt wcOpt =>
    labelsDistinct (ch.map RadixNode.label) &&
    wfList ch &&
    (match pcOpt with
     | some pc => wfNode pc
     | none => true) &&
    (match wcOpt with
     | some wc => wfNode wc
     | none => true)
termination_by node => sizeOf node

/-- Well-formedness of every node of a list. -/
def wfList : List RadixNode → Bool
  | [] => true
  | c :: cs => wfNode c && wfList cs
termination_by cs => sizeOf cs

end

/-- Middleware layer of middleware.js: optional path scope plus the function,
the latter represented by a numeric identifier. -/
structure Layer where
  path : Option String
  fn : Nat
deriving DecidableEq, Repr

/-- `MiddlewareChain.add` (middleware.js lines 182-191): normalize a truthy
scope path to a leading slash and no trailing slash (except for the root),
then append the layer. A `none` path is a global layer; the empty string is
falsy in JS and skips both normalizations. -/
def addLayer (layers : List Layer) (path : Option String) (fn : Nat) : List Layer :=
  let p : Option String :=
    match path with
    | none => none
    | some s =>
      if s = "" then some s
      else
        let s1 := if jsStartsWith s "/" = false then "/" ++ s else s
        let s2 := if jsEndsWith s1 "/" && decide (1 < s1.length) then s1.dropRight 1 else s1
        some s2
  layers ++ [⟨p, fn⟩]

/-- The per-layer test of `MiddlewareChain.resolve` (middleware.js lines
212-215): global layers always apply; a scoped layer applies when its path
equals the request path or is a prefix of it followed by `/`. -/
def layerApplies (requestPath : String) (l : Layer) : Bool :=
  match l.path with
  | none => true
  | some p => requestPath == p || jsStartsWith requestPath (p ++ "/")

/-- The first loop of `MiddlewareChain.resolve`, collecting applicable layer
functions in registration order. -/
def resolveLoop (layers : List Layer) (requestPath : String) : List Nat :=
  match layers with
  | [] => []
  | l :: ls =>
    if layerApplies requestPath l then l.fn :: resolveLoop ls requestPath
    else resolveLoop ls requestPath

/-- `MiddlewareChain.resolve` (middleware.js lines 206-224): applicable
global/scoped layers in registration order, then the route-level middleware. -/
def resolve (layers : List Layer) (requestPath : String) (routeMiddleware : List Nat) :
    List Nat :=
  resolveLoop layers requestPath ++ routeMiddleware

/-- Observable action of a middleware body: call `next(err)` (with `none` for
a plain `next()`), or complete the response (`res.json`/`res.send`, which set
`res.sent`). -/
inductive MwAction where
  | callNext (err : Option Nat)
  | send
deriving DecidableEq, Repr

/-- How a middleware body (or handler) finishes: return normally or throw
synchronously. -/
inductive Term where
  | ret
  | throwE (e : Nat)
deriving DecidableEq, Repr

/-- A middleware function, abstracted to the finite list of observable
actions it performs in order, and how it finishes. -/
structure Script where
  acts : List MwAction
  term : Term
deriving DecidableEq, Repr

/-- The terminal route handler: whether it completes the response, and
whether it throws synchronously after doing so. -/
structure HandlerSpec where
  hsend : Bool
  hthrow : Option Nat
deriving DecidableEq, Repr

/-- Observable invocation events of one chain execution. -/
inductive Event where
  | mwCall (i : Nat)
  | handlerCall
  | errorCall (e : Nat)
deriving DecidableEq, Repr

/-- Executor state: the captured `idx` cursor, the `res.sent` flag, and the
log of invocation events so far. -/
structure ExecSt where
  idx : Nat
  sent : Bool
  log : List Event
deriving DecidableEq, Repr

/-- Pending work of the interpreter: an invocation of the `next` continuation
with its optional error, or the remaining body of a running middleware. -/
inductive Mode where
  | nextCall (err : Option Nat)
  | running (acts : List MwAction) (t : Term)
deriving DecidableEq, Repr

/-- The handler branch of `execute`'s `next` (middleware.js lines 260-270):
invoke the handler; a synchronous throw is routed to the error handler. -/
def runHandler (hd : HandlerSpec) (s : ExecSt) : ExecSt :=
  let s1 : ExecSt := { s with log := s.log ++ [.handlerCall], sent := s.sent || hd.hsend }
  match hd.hthrow with
  | some e => { s1 with log := s1.log ++ [.errorCall e] }
  | none => s1

/-- One interpreter for the `next` continuation of `MiddlewareChain.execute`
(middleware.js lines 246-285). `Mode.nextCall err` is a call of `next(err)`:
with an error it invokes the error handler and returns (line 250-253); with
none it stops silently if the response was sent (lines 255-258), runs the
handler if the cursor passed the last middleware (lines 260-270), and
otherwise logs and runs the next middleware (lines 272-281). `Mode.running`
executes a middleware body action by action; a nested `next` call runs to
completion and the body then continues, exactly as the synchronous JS call
stack does, and a synchronous throw is routed through `next(err)` (line
279-281). The fuel argument only bounds recursion depth. -/
def chainStep (fns : List Script) (hd : HandlerSpec) : Nat → Mode → ExecSt → ExecSt
  | 0, _, s => s
  | _ + 1, .nextCall (some e), s => { s with log := s.log ++ [.errorCall e] }
  | fuel + 1, .nextCall none, s =>
    if s.sent then s
    else
      match fns[s.idx]? with
      | some f =>
        chainStep fns hd fuel (.running f.acts f.term)
          { s with idx := s.idx + 1, log := s.log ++ [.mwCall s.idx] }
      | none => runHandler hd s
  | fuel + 1, .running [] t, s =>
    match t with
    | .ret => s
    | .throwE e => chainStep fns hd fuel (.nextCall (some e)) s
  | fuel + 1, .running (.send :: as) t, s =>
    chainStep fns hd fuel (.running as t) { s with sent := true }
  | fuel + 1, .running (.callNext e :: as) t, s =>
    chainStep fns hd fuel (.running as t) (chainStep fns hd fuel (.nextCall e) s)

/-- `MiddlewareChain.execute` (middleware.js line 284): start the chain by
calling `next()` on a fresh cursor and an unsent response. -/
def execute (fns : List Script) (hd : HandlerSpec) (fuel : Nat) : ExecSt :=
  chainStep fns hd fuel (.nextCall none) ⟨0, false, []⟩

/-- Events that are middleware or terminal-handler invocations (as opposed to
error-callback invocations). -/
def isInvoke : Event → Bool
  | .mwCall _ => true
  | .handlerCall => true
  | .errorCall _ => false


/-- Example router of claim C1: GET `/api` then GET `/apply`, whose insertion
splits the shared edge into `ap`. -/
def exApiRouter : Router :=
  ((emptyRouter.add "GET" "/api" [] 1).2.add "GET" "/apply" [] 2).2

/-- Example router of claim C2: one static route GET `/a`. -/
def exSlashRouter : Router := (emptyRouter.add "GET" "/a" [] 1).2

/-- Example router of claim C4: static `/users/me` and parametric `/users/:id`. -/
def exUsersRouter : Router :=
  ((emptyRouter.add "GET" "/users/me" [] 1).2.add "GET" "/users/:id" [] 2).2

/-- Example router of claim C6: one parametric route GET `/:a`. -/
def exParamRouter : Router := (emptyRouter.add "GET" "/:a" [] 1).2

/-- Example router of claim C7: parametric GET `/app/:x`, then static GET
`/apx` whose insertion splits the `app` edge into `ap`. -/
def exSplitRouter : Router :=
  ((emptyRouter.add "GET" "/app/:x" [] 1).2.add "GET" "/apx" [] 2).2

/-- Example router of claim C8: wildcard GET `/files/*` plus the more
specific static GET `/files/a`. -/
def exFilesRouter : Router :=
  ((emptyRouter.add "GET" "/files/*" [] 1).2.add "GET" "/files/a" [] 2).2

/-- Example router of claims C8 and C10: a single wildcard route GET `/files/*`. -/
def exWildRouter : Router := (emptyRouter.add "GET" "/files/*" [] 9).2

/-- Small concrete tree used by claim C4s witness: one static child `me`. -/
def exMeTree : RadixNode :=
  .mk [] [.mk ['m','e'] [] [("GET", ⟨1, []⟩)] none false none none] [] none false none none

/-- Concrete wildcard node used by claim C8s witness. -/
def exWcNode : RadixNode := .mk ['*'] [] [("GET", ⟨3, []⟩)] none true none none

/-- Example router for the parametric-over-wildcard half of claim C4:
parametric GET `/files/:name` plus wildcard GET `/files/*`. -/
def exPWRouter : Router :=
  ((emptyRouter.add "GET" "/files/:name" [] 5).2.add "GET" "/files/*" [] 6).2

/-- Concrete parametric node used by claim C4s witness. -/
def exPcNode : RadixNode := .mk [':','n'] [] [("GET", ⟨5, []⟩)] (some ['n']) false none none

end Roach

open Roach

theorem resolveLoop_eq_filter (layers : List Layer) (rp : String) :
    resolveLoop layers rp = (layers.filter (layerApplies rp)).map Layer.fn := by
  induction layers with
  | nil => rfl
  | cons l ls ih =>
    by_cases h : layerApplies rp l = true <;> simp [resolveLoop, List.filter, h, ih]

theorem chainStep_sent_no_invocations (fns : List Script) (hd : HandlerSpec) :
    ∀ (fuel : Nat) (mode : Mode) (s : ExecSt), s.sent = true →
      (chainStep fns hd fuel mode s).sent = true ∧
      (chainStep fns hd fuel mode s).log.filter isInvoke = s.log.filter isInvoke := by
  intro fuel
  induction fuel with
  | zero => intro mode s hs; exact ⟨hs, rfl⟩
  | succ n ih =>
    intro mode s hs
    match mode with
    | .nextCall (some e) =>
      refine ⟨hs, ?_⟩
      simp [chainStep, List.filter_append, isInvoke]
    | .nextCall none =>
      simp [chainStep, hs]
    | .running [] t =>
      match t with
      | .ret => exact ⟨hs, rfl⟩
      | .throwE e => exact ih (.nextCall (some e)) s hs
    | .running (.send :: as) t =>
      have := ih (.running as t) { s with sent := true } rfl
      simpa [chainStep] using this
    | .running (.callNext e :: as) t =>
      have h1 := ih (.nextCall e) s hs
      have h2 := ih (.running as t) (chainStep fns hd n (.nextCall e) s) h1.1
      exact ⟨by simpa [chainStep] using h2.1, by simp [chainStep]; rw [h2.2, h1.2]⟩

theorem delParam_sublist (p : Params) (k : Seg) : (delParam p k).Sublist p := by
  induction p with
  | nil => simp [delParam]
  | cons kv rest ih =>
    rcases kv with ⟨k', v'⟩
    by_cases h : k' = k <;> simp [delParam, h]
    · exact ih.trans (List.sublist_cons_self _ _)
    · exact ih

theorem sublist_delParam {p q : Params} (h : p.Sublist q) (k : Seg) :
    (delParam p k).Sublist (delParam q k) := by
  induction h with
  | slnil => simp [delParam]
  | cons kv hsub ih =>
    rcases kv with ⟨k', v'⟩
    by_cases hk : k' = k
    · simpa [delParam, hk] using ih
    · simp only [delParam, if_neg hk]
      exact ih.trans (List.sublist_cons_self _ _)
  | cons₂ kv hsub ih =>
    rcases kv with ⟨k', v'⟩
    by_cases hk : k' = k
    · simpa [delParam, hk] using ih
    · simp only [delParam, if_neg hk]
      exact List.Sublist.cons₂ _ ih

theorem delParam_setParam (p : Params) (k v : Seg) :
    delParam (setParam p k v) k = delParam p k := by
  induction p with
  | nil => simp [setParam, delParam]
  | cons kv rest ih =>
    rcases kv with ⟨k', v'⟩
    by_cases h : k' = k <;> simp [setParam, delParam, h, ih]

theorem mem_setParam {p : Params} {k v k' v' : Seg}
    (h : (k', v') ∈ setParam p k v) : (k', v') ∈ p ∨ (k' = k ∧ v' = v) := by
  induction p with
  | nil =>
    simp [setParam] at h
    exact Or.inr ⟨h.1, h.2⟩
  | cons kv rest ih =>
    rcases kv with ⟨k0, v0⟩
    by_cases hk : k0 = k
    · rw [setParam, if_pos hk] at h
      rcases List.mem_cons.mp h with h1 | h1
      · rcases Prod.mk.injEq .. ▸ h1 with ⟨h2, h3⟩
        exact Or.inr ⟨by rw [h2, hk], h3⟩
      · exact Or.inl (List.mem_cons_of_mem _ h1)
    · rw [setParam, if_neg hk] at h
      rcases List.mem_cons.mp h with h1 | h1
      · exact Or.inl (List.mem_cons.mpr (Or.inl h1))
      · rcases ih h1 with h2 | h2
        · exact Or.inl (List.mem_cons_of_mem _ h2)
        · exact Or.inr h2

theorem search_nil (l : Seg) (ch : List RadixNode) (hnd : List (String × RouteEntry))
    (pn : Option Seg) (iw : Bool) (pcOpt wcOpt : Option RadixNode) (p : Params)
    (m : String) :
    search (.mk l ch hnd pn iw pcOpt wcOpt) [] p m
      = (match lookupStr m hnd with
         | some route => (some ⟨route.handler, p, route.middleware⟩, p)
         | none => (none, p)) := rfl

theorem search_cons (l : Seg) (ch : List RadixNode) (hnd : List (String × RouteEntry))
    (pn : Option Seg) (iw : Bool) (pcOpt wcOpt : Option RadixNode) (seg : Seg)
    (rest : List Seg) (p : Params) (m : String) :
    search (.mk l ch hnd pn iw pcOpt wcOpt) (seg :: rest) p m
      = (let r1 := searchChildren ch seg rest p m
         if r1.1.isSome then r1
         else
           let r2 := searchParam pcOpt seg rest r1.2 m
           if r2.1.isSome then r2
           else wildcardStep wcOpt seg rest r2.2 m) := rfl

theorem searchChildren_nil (seg : Seg) (rest : List Seg) (p : Params) (m : String) :
    searchChildren [] seg rest p m = (none, p) := rfl

theorem searchChildren_cons (c : RadixNode) (cs' : List RadixNode) (seg : Seg)
    (rest : List Seg) (p : Params) (m : String) :
    searchChildren (c :: cs') seg rest p m
      = (if c.label = seg then
           let r := search c rest p m
           if r.1.isSome then r else searchChildren cs' seg rest r.2 m
         else searchChildren cs' seg rest p m) := rfl

theorem searchParam_none_eq (seg : Seg) (rest : List Seg) (p : Params) (m : String) :
    searchParam none seg rest p m = (none, p) := rfl

theorem searchParam_some_eq (pc : RadixNode) (seg : Seg) (rest : List Seg) (p : Params)
    (m : String) :
    searchParam (some pc) seg rest p m
      = (let pname := pc.paramName.getD []
         let r := search pc rest (setParam p pname seg) m
         if r.1.isSome then r else (none, delParam r.2 pname)) := rfl

theorem staticSearch_nil (l : Seg) (ch : List RadixNode)
    (hnd : List (String × RouteEntry)) (pn : Option Seg) (iw : Bool)
    (pcOpt wcOpt : Option RadixNode) (m : String) :
    staticSearch (.mk l ch hnd pn iw pcOpt wcOpt) [] m = lookupStr m hnd := rfl

theorem staticSearch_cons (l : Seg) (ch : List RadixNode)
    (hnd : List (String × RouteEntry)) (pn : Option Seg) (iw : Bool)
    (pcOpt wcOpt : Option RadixNode) (seg : Seg) (rest : List Seg) (m : String) :
    staticSearch (.mk l ch hnd pn iw pcOpt wcOpt) (seg :: rest) m
      = staticSearchChildren ch seg rest m := rfl

theorem staticSearchChildren_nil (seg : Seg) (rest : List Seg) (m : String) :
    staticSearchChildren [] seg rest m = none := rfl

theorem staticSearchChildren_cons (c : RadixNode) (cs' : List RadixNode) (seg : Seg)
    (rest : List Seg) (m : String) :
    staticSearchChildren (c :: cs') seg rest m
      = (if c.label = seg then
           match staticSearch c rest m with
           | some e => some e
           | none => staticSearchChildren cs' seg rest m
         else staticSearchChildren cs' seg rest m) := rfl

theorem searchChildren_none_sublist (rest : List Seg)
    (hs : ∀ (node : RadixNode) (p : Params) (m : String),
      (search node rest p m).1 = none → (search node rest p m).2.Sublist p) :
    ∀ (cs : List RadixNode) (seg : Seg) (p : Params) (m : String),
      (searchChildren cs seg rest p m).1 = none →
      (searchChildren cs seg rest p m).2.Sublist p := by
  intro cs
  induction cs with
  | nil => intro seg p m _; simp [searchChildren_nil]
  | cons c cs' ih =>
    intro seg p m hfail
    by_cases hl : c.label = seg
    · rcases hr : search c rest p m with ⟨o, q⟩
      cases o with
      | some r => simp [searchChildren_cons, hl, hr] at hfail
      | none =>
        have hq : q.Sublist p := by
          have := hs c p m (by rw [hr])
          rwa [hr] at this
        have hred : searchChildren (c :: cs') seg rest p m
            = searchChildren cs' seg rest q m := by
          simp [searchChildren_cons, hl, hr]
        rw [hred] at hfail ⊢
        exact (ih seg q m hfail).trans hq
    · have hred : searchChildren (c :: cs') seg rest p m
          = searchChildren cs' seg rest p m := by
        simp [searchChildren_cons, hl]
      rw [hred] at hfail ⊢
      exact ih seg p m hfail

theorem wildcardStep_none_sublist (wcOpt : Option RadixNode) (seg : Seg) (rest : List Seg)
    (p : Params) (m : String) (h : (wildcardStep wcOpt seg rest p m).1 = none) :
    (wildcardStep wcOpt seg rest p m).2.Sublist p := by
  cases wcOpt with
  | none => simp [wildcardStep]
  | some wc =>
    cases hlk : lookupStr m wc.handlers with
    | some route => simp [wildcardStep, hlk] at h
    | none =>
      have hred : wildcardStep (some wc) seg rest p m
          = (none, delParam (setParam p ['*'] (List.intercalate ['/'] (seg :: rest))) ['*']) := by
        simp [wildcardStep, hlk]
      rw [hred, delParam_setParam]
      exact delParam_sublist p ['*']

theorem searchParam_none_sublist (rest : List Seg)
    (hs : ∀ (node : RadixNode) (p : Params) (m : String),
      (search node rest p m).1 = none → (search node rest p m).2.Sublist p)
    (pcOpt : Option RadixNode) (seg : Seg) (p : Params) (m : String)
    (h : (searchParam pcOpt seg rest p m).1 = none) :
    (searchParam pcOpt seg rest p m).2.Sublist p := by
  cases pcOpt with
  | none => simp [searchParam_none_eq]
  | some pc =>
    rcases hr : search pc rest (setParam p (pc.paramName.getD []) seg) m with ⟨o, q⟩
    cases o with
    | some r => simp [searchParam_some_eq, hr] at h
    | none =>
      have hq : q.Sublist (setParam p (pc.paramName.getD []) seg) := by
        have := hs pc (setParam p (pc.paramName.getD []) seg) m (by rw [hr])
        rwa [hr] at this
      have hred : searchParam (some pc) seg rest p m
          = (none, delParam q (pc.paramName.getD [])) := by
        simp [searchParam_some_eq, hr]
      rw [hred]
      have h1 := sublist_delParam hq (pc.paramName.getD [])
      rw [delParam_setParam] at h1
      exact h1.trans (delParam_sublist p _)

theorem search_none_sublist :
    ∀ (rem : List Seg) (node : RadixNode) (p : Params) (m : String),
      (search node rem p m).1 = none → (search node rem p m).2.Sublist p := by
  intro rem
  induction rem with
  | nil =>
    intro node p m h
    cases node with
    | mk l ch hnd pn iw pcOpt wcOpt =>
      cases hlk : lookupStr m hnd with
      | none => rw [search_nil]; simp [hlk]
      | some route => rw [search_nil] at h; simp [hlk] at h
  | cons seg rest ih =>
    intro node p m h
    cases node with
    | mk l ch hnd pn iw pcOpt wcOpt =>
      rcases hr1 : searchChildren ch seg rest p m with ⟨o1, q1⟩
      cases o1 with
      | some r => rw [search_cons] at h; simp [hr1] at h
      | none =>
        have hq1 : q1.Sublist p := by
          have := searchChildren_none_sublist rest ih ch seg p m (by rw [hr1])
          rwa [hr1] at this
        rcases hr2 : searchParam pcOpt seg rest q1 m with ⟨o2, q2⟩
        cases o2 with
        | some r => rw [search_cons] at h; simp [hr1, hr2] at h
        | none =>
          have hq2 : q2.Sublist q1 := by
            have := searchParam_none_sublist rest ih pcOpt seg q1 m (by rw [hr2])
            rwa [hr2] at this
          have hred : search (.mk l ch hnd pn iw pcOpt wcOpt) (seg :: rest) p m
              = wildcardStep wcOpt seg rest q2 m := by
            rw [search_cons]; simp [hr1, hr2]
          rw [hred] at h ⊢
          exact (wildcardStep_none_sublist wcOpt seg rest q2 m h).trans (hq2.trans hq1)

theorem intercalate_slash_ne_nil (x : Seg) (xs : List Seg) (hx : x ≠ []) :
    List.intercalate ['/'] (x :: xs) ≠ [] := by
  cases xs with
  | nil => simpa [List.intercalate] using hx
  | cons y ys => simp [List.intercalate, hx]

theorem splitAux_mem_ne_nil :
    ∀ (l : List Char) (acc : Seg), ∀ s ∈ splitAux l acc, s ≠ [] := by
  intro l
  induction l with
  | nil =>
    intro acc s hs
    by_cases h : acc = [] <;> simp [splitAux, h] at hs
    rw [hs]
    simpa using h
  | cons c cs ih =>
    intro acc s hs
    by_cases hc : c = '/'
    · by_cases h : acc = []
      · rw [splitAux, if_pos hc, if_pos h] at hs
        exact ih [] s hs
      · rw [splitAux, if_pos hc, if_neg h] at hs
        rcases List.mem_cons.mp hs with h1 | h1
        · rw [h1]; simpa using h
        · exact ih [] s h1
    · rw [splitAux, if_neg hc] at hs
      exact ih (c :: acc) s hs

theorem wildcardStep_star (wcOpt : Option RadixNode) (seg : Seg) (rest : List Seg)
    (p : Params) (m : String) (res : MatchResult) (p' : Params)
    (hs : wildcardStep wcOpt seg rest p m = (some res, p'))
    (hp : ∀ v, (['*'], v) ∈ p → v ≠ []) (hseg : seg ≠ []) :
    ∀ v, (['*'], v) ∈ res.params → v ≠ [] := by
  intro v hv
  cases wcOpt with
  | none => simp [wildcardStep] at hs
  | some wc =>
    cases hlk : lookupStr m wc.handlers with
    | none => simp [wildcardStep, hlk] at hs
    | some route =>
      have hred : wildcardStep (some wc) seg rest p m
          = (some ⟨route.handler, setParam p ['*'] (List.intercalate ['/'] (seg :: rest)),
              route.middleware⟩,
             setParam p ['*'] (List.intercalate ['/'] (seg :: rest))) := by
        simp [wildcardStep, hlk]
      rw [hred] at hs
      have h3 := Option.some.inj (Prod.mk.inj hs).1
      have hres : res.params = setParam p ['*'] (List.intercalate ['/'] (seg :: rest)) := by
        rw [← h3]
      rw [hres] at hv
      rcases mem_setParam hv with h1 | h1
      · exact hp v h1
      · rw [h1.2]; exact intercalate_slash_ne_nil seg rest hseg

theorem searchParam_star (rest : List Seg)
    (hind : ∀ (node : RadixNode) (p : Params) (m : String) (res : MatchResult) (p' : Params),
      search node rest p m = (some res, p') →
      (∀ v, (['*'], v) ∈ p → v ≠ []) → ∀ v, (['*'], v) ∈ res.params → v ≠ [])
    (pcOpt : Option RadixNode) (seg : Seg) (p : Params) (m : String)
    (res : MatchResult) (p' : Params)
    (hsp : searchParam pcOpt seg rest p m = (some res, p'))
    (hp : ∀ v, (['*'], v) ∈ p → v ≠ []) (hseg : seg ≠ []) :
    ∀ v, (['*'], v) ∈ res.params → v ≠ [] := by
  cases pcOpt with
  | none => simp [searchParam_none_eq] at hsp
  | some pc =>
    have hset : ∀ v, (['*'], v) ∈ setParam p (pc.paramName.getD []) seg → v ≠ [] := by
      intro v hv
      rcases mem_setParam hv with h1 | h1
      · exact hp v h1
      · rw [h1.2]; exact hseg
    rcases hr : search pc rest (setParam p (pc.paramName.getD []) seg) m with ⟨o, q⟩
    cases o with
    | some r =>
      have hred : searchParam (some pc) seg rest p m = (some r, q) := by
        simp [searchParam_some_eq, hr]
      rw [hred] at hsp
      have hrr : r = res := Option.some.inj (Prod.mk.inj hsp).1
      subst hrr
      exact hind pc (setParam p (pc.paramName.getD []) seg) m r q hr hset
    | none =>
      have hred : searchParam (some pc) seg rest p m
          = (none, delParam q (pc.paramName.getD [])) := by
        simp [searchParam_some_eq, hr]
      rw [hred] at hsp
      simp at hsp

theorem search_star :
    ∀ (rem : List Seg), (∀ s ∈ rem, s ≠ []) →
      ∀ (node : RadixNode) (p : Params) (m : String) (res : MatchResult) (p' : Params),
        search node rem p m = (some res, p') →
        (∀ v, (['*'], v) ∈ p → v ≠ []) → ∀ v, (['*'], v) ∈ res.params → v ≠ [] := by
  intro rem
  induction rem with
  | nil =>
    intro _ node p m res p' hs hp v hv
    cases node with
    | mk l ch hnd pn iw pcOpt wcOpt =>
      cases hlk : lookupStr m hnd with
      | none =>
        rw [search_nil] at hs; simp [hlk] at hs
      | some route =>
        have hred : search (.mk l ch hnd pn iw pcOpt wcOpt) ([] : List Seg) p m
            = (some ⟨route.handler, p, route.middleware⟩, p) := by
          rw [search_nil]; simp [hlk]
        rw [hred] at hs
        have h3 := Option.some.inj (Prod.mk.inj hs).1
        have : res.params = p := by rw [← h3]
        rw [this] at hv
        exact hp v hv
  | cons seg rest ih =>
    intro hne node p m res p' hs hp v hv
    have hseg : seg ≠ [] := hne seg (by simp)
    have hrest : ∀ s ∈ rest, s ≠ [] := fun s h => hne s (by simp [h])
    have hchild : ∀ (cs : List RadixNode) (p0 : Params) (res0 : MatchResult) (q0 : Params),
        searchChildren cs seg rest p0 m = (some res0, q0) →
        (∀ v, (['*'], v) ∈ p0 → v ≠ []) → ∀ v, (['*'], v) ∈ res0.params → v ≠ [] := by
      intro cs
      induction cs with
      | nil => intro p0 res0 q0 habs; simp [searchChildren_nil] at habs
      | cons c cs' ihc =>
        intro p0 res0 q0 hsc hp0
        by_cases hl : c.label = seg
        · rcases hr : search c rest p0 m with ⟨o, q⟩
          cases o with
          | some r =>
            have hrr : r = res0 := by
              have : searchChildren (c :: cs') seg rest p0 m = (some r, q) := by
                simp [searchChildren_cons, hl, hr]
              rw [this] at hsc
              exact Option.some.inj (Prod.mk.inj hsc).1
            subst hrr
            exact ih hrest c p0 m r q hr hp0
          | none =>
            have hq : q.Sublist p0 := by
              have := search_none_sublist rest c p0 m (by rw [hr])
              rwa [hr] at this
            have hsc' : searchChildren cs' seg rest q m = (some res0, q0) := by
              rw [← hsc]; simp [searchChildren_cons, hl, hr]
            exact ihc q res0 q0 hsc' (fun v hv => hp0 v (hq.subset hv))
        · have hsc' : searchChildren cs' seg rest p0 m = (some res0, q0) := by
            rw [← hsc]; simp [searchChildren_cons, hl]
          exact ihc p0 res0 q0 hsc' hp0
    cases node with
    | mk l ch hnd pn iw pcOpt wcOpt =>
      rcases hr1 : searchChildren ch seg rest p m with ⟨o1, q1⟩
      cases o1 with
      | some r =>
        have hred : search (.mk l ch hnd pn iw pcOpt wcOpt) (seg :: rest) p m
            = (some r, q1) := by
          rw [search_cons]; simp [hr1]
        rw [hred] at hs
        have hrr : r = res := Option.some.inj (Prod.mk.inj hs).1
        subst hrr
        exact hchild ch p r q1 hr1 hp v hv
      | none =>
        have hq1 : q1.Sublist p := by
          have := searchChildren_none_sublist rest (search_none_sublist rest) ch seg p m
            (by rw [hr1])
          rwa [hr1] at this
        have hpq1 : ∀ v, (['*'], v) ∈ q1 → v ≠ [] := fun v hv => hp v (hq1.subset hv)
        rcases hr2 : searchParam pcOpt seg rest q1 m with ⟨o2, q2⟩
        cases o2 with
        | some r =>
          have hred : search (.mk l ch hnd pn iw pcOpt wcOpt) (seg :: rest) p m
              = (some r, q2) := by
            rw [search_cons]; simp [hr1, hr2]
          rw [hred] at hs
          have hrr : r = res := Option.some.inj (Prod.mk.inj hs).1
          subst hrr
          exact searchParam_star rest (ih hrest) pcOpt seg q1 m r q2 hr2 hpq1 hseg v hv
        | none =>
          have hq2 : q2.Sublist q1 := by
            have := searchParam_none_sublist rest (search_none_sublist rest) pcOpt seg q1 m
              (by rw [hr2])
            rwa [hr2] at this
          have hpq2 : ∀ v, (['*'], v) ∈ q2 → v ≠ [] := fun v hv => hpq1 v (hq2.subset hv)
          have hred : search (.mk l ch hnd pn iw pcOpt wcOpt) (seg :: rest) p m
              = wildcardStep wcOpt seg rest q2 m := by
            rw [search_cons]; simp [hr1, hr2]
          rw [hred] at hs
          exact wildcardStep_star wcOpt seg rest q2 m res p' hs hpq2 hseg v hv

theorem wfList_mem {cs : List RadixNode} (h : wfList cs = true) :
    ∀ c ∈ cs, wfNode c = true := by
  induction cs with
  | nil => intro c hc; simp at hc
  | cons c0 cs' ih =>
    intro c hc
    rw [wfList.eq_def] at h
    simp at h
    rcases List.mem_cons.mp hc with h1 | h1
    · rw [h1]; exact h.1
    · exact ih h.2 c h1

theorem wfNode_parts {l : Seg} {ch : List RadixNode} {hnd : List (String × RouteEntry)}
    {pn : Option Seg} {iw : Bool} {pcOpt wcOpt : Option RadixNode}
    (h : wfNode (.mk l ch hnd pn iw pcOpt wcOpt) = true) :
    labelsDistinct (ch.map RadixNode.label) = true ∧ wfList ch = true := by
  rw [wfNode.eq_def] at h
  simp at h
  exact ⟨h.1.1.1, h.1.1.2⟩

theorem labelsDistinct_cons {l : Seg} {ls : List Seg}
    (h : labelsDistinct (l :: ls) = true) : l ∉ ls ∧ labelsDistinct ls = true := by
  rw [labelsDistinct] at h
  simp at h
  exact h

theorem staticSearchChildren_none_of_not_mem (rest : List Seg) (m : String) :
    ∀ (cs : List RadixNode) (seg : Seg), (∀ c ∈ cs, c.label ≠ seg) →
      staticSearchChildren cs seg rest m = none := by
  intro cs
  induction cs with
  | nil => intro seg _; simp [staticSearchChildren_nil]
  | cons c cs' ih =>
    intro seg hne
    have hc : c.label ≠ seg := hne c (by simp)
    simp [staticSearchChildren_cons, hc]
    exact ih seg (fun c' hc' => hne c' (by simp [hc']))

theorem static_search_wins :
    ∀ (rem : List Seg) (node : RadixNode) (m : String) (route : RouteEntry),
      wfNode node = true → staticSearch node rem m = some route →
      search node rem [] m = (some ⟨route.handler, [], route.middleware⟩, []) := by
  intro rem
  induction rem with
  | nil =>
    intro node m route _ hss
    cases node with
    | mk l ch hnd pn iw pcOpt wcOpt =>
      rw [staticSearch_nil] at hss
      rw [search_nil]
      simp [hss]
  | cons seg rest ih =>
    intro node m route hwf hss
    cases node with
    | mk l ch hnd pn iw pcOpt wcOpt =>
      rw [staticSearch_cons] at hss
      obtain ⟨hdist, hwl⟩ := wfNode_parts hwf
      have hchild : ∀ (cs : List RadixNode),
          labelsDistinct (cs.map RadixNode.label) = true → wfList cs = true →
          staticSearchChildren cs seg rest m = some route →
          searchChildren cs seg rest [] m = (some ⟨route.handler, [], route.middleware⟩, []) := by
        intro cs
        induction cs with
        | nil => intro _ _ habs; rw [staticSearchChildren_nil] at habs; exact absurd habs (by simp)
        | cons c cs' ihc =>
          intro hd hw hsc
          have hd' := labelsDistinct_cons (by simpa using hd)
          have hwc : wfNode c = true := (wfList_mem hw) c (by simp)
          have hwcs : wfList cs' = true := by
            rw [wfList.eq_def] at hw; simp at hw; exact hw.2
          by_cases hl : c.label = seg
          · have hno : ∀ c' ∈ cs', c'.label ≠ seg := by
              intro c' hc' heq
              refine absurd ?_ hd'.1
              rw [hl, ← heq]
              exact List.mem_map_of_mem RadixNode.label hc'
            cases hsc0 : staticSearch c rest m with
            | none =>
              simp [staticSearchChildren_cons, hl, hsc0,
                staticSearchChildren_none_of_not_mem rest m cs' seg hno] at hsc
            | some e =>
              have he : e = route := by
                simpa [staticSearchChildren_cons, hl, hsc0] using hsc
              subst he
              have hsr := ih c m e hwc hsc0
              simp [searchChildren_cons, hl, hsr]
          · have hsc' : staticSearchChildren cs' seg rest m = some route := by
              simpa [staticSearchChildren_cons, hl] using hsc
            have := ihc hd'.2 hwcs hsc'
            simp [searchChildren_cons, hl]
            exact this
      have hscres := hchild ch hdist hwl hss
      rw [search_cons]
      simp [hscres]

theorem insertSegs_empty_param (node : RadixNode) (m path : String) (e : RouteEntry) :
    (insertSegs node ([':'] :: []) m path e).1
      = some (.invalidRoute path "Parameter name cannot be empty") := by
  cases node with
  | mk l ch hnd pn iw pcOpt wcOpt => rw [insertSegs.eq_def]; simp

theorem insertSegs_wildcard_not_last (node : RadixNode) (rest : List Seg) (m path : String)
    (e : RouteEntry) (h : rest ≠ []) :
    (insertSegs node (['*'] :: rest) m path e).1
      = some (.invalidRoute path "Wildcard (*) must be the last segment") := by
  cases node with
  | mk l ch hnd pn iw pcOpt wcOpt => rw [insertSegs.eq_def]; simp [h]

theorem commonPrefixLength_nil_left (b : Seg) : commonPrefixLength [] b = 0 := by
  cases b <;> rfl

theorem commonPrefixLength_nil_right (a : Seg) : commonPrefixLength a [] = 0 := by
  cases a <;> rfl

theorem insChildren_nil_eq (seg : Seg) (rest : List Seg) (m path : String)
    (e : RouteEntry) : insChildren [] seg rest m path e = none := rfl

theorem insChildren_cons_eq (c : RadixNode) (cs : List RadixNode) (seg : Seg)
    (rest : List Seg) (m path : String) (e : RouteEntry) :
    insChildren (c :: cs) seg rest m path e
      = (let cl := commonPrefixLength c.label seg
         if cl = 0 then
           (insChildren cs seg rest m path e).map (fun r => (r.1, c :: r.2))
         else if cl = c.label.length ∧ cl = seg.length then
           let r := insertSegs c rest m path e
           some (r.1, r.2 :: cs)
         else if cl = c.label.length then
           let r := insertStaticSegs c (seg.drop cl) rest m path e
           some (r.1, r.2 :: cs)
         else
           let childShrunk := c.relabel (c.label.drop cl)
           if cl = seg.length then
             let splitNode : RadixNode :=
               .mk (c.label.take cl) [childShrunk] [] none false none none
             let r := insertSegs splitNode rest m path e
             some (r.1, r.2 :: cs)
           else
             let newNode : RadixNode := .mk (seg.drop cl) [] [] none false none none
             let r := insertSegs newNode rest m path e
             some (r.1,
               (.mk (c.label.take cl) [childShrunk, r.2] [] none false none none) :: cs)) :=
  rfl

theorem insertStaticSegs_eq (parent : RadixNode) (seg : Seg) (rest : List Seg)
    (m path : String) (e : RouteEntry) :
    insertStaticSegs parent seg rest m path e
      = (match insChildren parent.children seg rest m path e with
         | some r => (r.1, parent.withChildren r.2)
         | none =>
           let r := insertSegs (.mk seg [] [] none false none none) rest m path e
           (r.1, parent.withChildren (parent.children ++ [r.2]))) := by
  cases parent with
  | mk l ch hnd pn iw pcOpt wcOpt => rfl

theorem insChildren_cons_zero {c : RadixNode} {cs : List RadixNode} {seg : Seg}
    {rest : List Seg} {m path : String} {e : RouteEntry}
    (h0 : commonPrefixLength c.label seg = 0) :
    insChildren (c :: cs) seg rest m path e
      = (insChildren cs seg rest m path e).map (fun r => (r.1, c :: r.2)) := by
  rw [insChildren_cons_eq]
  simp [h0]

theorem insChildren_cons_exact {c : RadixNode} {cs : List RadixNode} {seg : Seg}
    {rest : List Seg} {m path : String} {e : RouteEntry}
    (h0 : commonPrefixLength c.label seg ≠ 0)
    (h1 : commonPrefixLength c.label seg = c.label.length)
    (h2 : commonPrefixLength c.label seg = seg.length) :
    insChildren (c :: cs) seg rest m path e
      = some ((insertSegs c rest m path e).1, (insertSegs c rest m path e).2 :: cs) := by
  have hnil : ¬(c.label = []) := by
    intro hh
    exact h0 (by rw [hh, commonPrefixLength_nil_left])
  have hsegnil : ¬(seg = []) := by
    intro hh
    exact h0 (by rw [hh, commonPrefixLength_nil_right])
  have hlen : c.label.length = seg.length := by omega
  rw [insChildren_cons_eq]
  simp [h0, h1, h2, hnil, hsegnil, hlen]

theorem insChildren_cons_descend {c : RadixNode} {cs : List RadixNode} {seg : Seg}
    {rest : List Seg} {m path : String} {e : RouteEntry}
    (h0 : commonPrefixLength c.label seg ≠ 0)
    (h1 : commonPrefixLength c.label seg = c.label.length)
    (h2 : commonPrefixLength c.label seg ≠ seg.length) :
    insChildren (c :: cs) seg rest m path e
      = some ((insertStaticSegs c (seg.drop (commonPrefixLength c.label seg)) rest m path e).1,
          (insertStaticSegs c (seg.drop (commonPrefixLength c.label seg)) rest m path e).2
            :: cs) := by
  have hnil : ¬(c.label = []) := by
    intro hh
    exact h0 (by rw [hh, commonPrefixLength_nil_left])
  have hlen : ¬(c.label.length = seg.length) := by omega
  rw [insChildren_cons_eq]
  simp [h0, h1, h2, hnil, hlen]

theorem insChildren_cons_split_exact {c : RadixNode} {cs : List RadixNode} {seg : Seg}
    {rest : List Seg} {m path : String} {e : RouteEntry}
    (h0 : commonPrefixLength c.label seg ≠ 0)
    (h1 : commonPrefixLength c.label seg ≠ c.label.length)
    (h2 : commonPrefixLength c.label seg = seg.length) :
    insChildren (c :: cs) seg rest m path e
      = some ((insertSegs (.mk (c.label.take (commonPrefixLength c.label seg))
            [c.relabel (c.label.drop (commonPrefixLength c.label seg))] [] none false none none)
            rest m path e).1,
          (insertSegs (.mk (c.label.take (commonPrefixLength c.label seg))
            [c.relabel (c.label.drop (commonPrefixLength c.label seg))] [] none false none none)
            rest m path e).2 :: cs) := by
  have hsegnil : ¬(seg = []) := by
    intro hh
    exact h0 (by rw [hh, commonPrefixLength_nil_right])
  have hlen : ¬(seg.length = c.label.length) := by omega
  rw [insChildren_cons_eq]
  simp [h0, h1, h2, hsegnil, hlen]

theorem insChildren_cons_split_branch {c : RadixNode} {cs : List RadixNode} {seg : Seg}
    {rest : List Seg} {m path : String} {e : RouteEntry}
    (h0 : commonPrefixLength c.label seg ≠ 0)
    (h1 : commonPrefixLength c.label seg ≠ c.label.length)
    (h2 : commonPrefixLength c.label seg ≠ seg.length) :
    insChildren (c :: cs) seg rest m path e
      = some ((insertSegs (.mk (seg.drop (commonPrefixLength c.label seg)) [] [] none false
            none none) rest m path e).1,
          (.mk (c.label.take (commonPrefixLength c.label seg))
            [c.relabel (c.label.drop (commonPrefixLength c.label seg)),
             (insertSegs (.mk (seg.drop (commonPrefixLength c.label seg)) [] [] none false
               none none) rest m path e).2] [] none false none none) :: cs) := by
  rw [insChildren_cons_eq]
  simp [h0, h1, h2]

theorem insert_err_prop (rest : List Seg) (m path : String) (e : RouteEntry)
    (err : RouterError) (herr : ∀ n, (insertSegs n rest m path e).1 = some err) :
    ∀ (k : Nat),
      (∀ (cs : List RadixNode), sizeOf cs ≤ k →
        ∀ (seg : Seg) (out : Option RouterError × List RadixNode),
          insChildren cs seg rest m path e = some out → out.1 = some err)
      ∧ (∀ (parent : RadixNode), sizeOf parent ≤ k → ∀ (seg : Seg),
          (insertStaticSegs parent seg rest m path e).1 = some err) := by
  intro k
  induction k using Nat.strong_induction_on with
  | _ k ih =>
    have part1 : ∀ (cs : List RadixNode), sizeOf cs ≤ k →
        ∀ (seg : Seg) (out : Option RouterError × List RadixNode),
          insChildren cs seg rest m path e = some out → out.1 = some err := by
      intro cs hk seg out hout
      cases cs with
      | nil => simp [insChildren_nil_eq] at hout
      | cons c cs' =>
        have hcs' : sizeOf cs' < k := by
          have h1 : sizeOf cs' < sizeOf (c :: cs') := by simp_arith
          omega
        have hc : sizeOf c < k := by
          have h1 : sizeOf c < sizeOf (c :: cs') := by
            have := sizeOf_radixList_pos cs'
            simp_arith
          omega
        by_cases h0 : commonPrefixLength c.label seg = 0
        · rw [insChildren_cons_zero h0] at hout
          rcases Option.map_eq_some'.mp hout with ⟨r, hr, hrout⟩
          have := (ih (sizeOf cs') hcs').1 cs' (le_refl _) seg r hr
          rw [← hrout]
          exact this
        · by_cases h1 : commonPrefixLength c.label seg = c.label.length
          · by_cases h2 : commonPrefixLength c.label seg = seg.length
            · rw [insChildren_cons_exact h0 h1 h2] at hout
              have := Option.some.inj hout
              rw [← this]
              exact herr c
            · rw [insChildren_cons_descend h0 h1 h2] at hout
              have := Option.some.inj hout
              rw [← this]
              exact (ih (sizeOf c) hc).2 c (le_refl _) _
          · by_cases h2 : commonPrefixLength c.label seg = seg.length
            · rw [insChildren_cons_split_exact h0 h1 h2] at hout
              have := Option.some.inj hout
              rw [← this]
              exact herr _
            · rw [insChildren_cons_split_branch h0 h1 h2] at hout
              have := Option.some.inj hout
              rw [← this]
              exact herr _
    refine ⟨part1, ?_⟩
    intro parent hk seg
    cases hpc : insChildren parent.children seg rest m path e with
    | some r =>
      have hch : sizeOf parent.children < k := by
        have := sizeOf_children_lt parent
        omega
      have := (ih (sizeOf parent.children) hch).1 parent.children (le_refl _) seg r hpc
      rw [insertStaticSegs_eq, hpc]
      exact this
    | none =>
      rw [insertStaticSegs_eq, hpc]
      exact herr _

theorem insertStaticSegs_err (rest : List Seg) (m path : String) (e : RouteEntry)
    (err : RouterError) (herr : ∀ n, (insertSegs n rest m path e).1 = some err)
    (parent : RadixNode) (seg : Seg) :
    (insertStaticSegs parent seg rest m path e).1 = some err :=
  (insert_err_prop rest m path e err herr (sizeOf parent)).2 parent (le_refl _) seg

/-- C1: the claim states that every fully static route present in the static
cache agrees with the tree — the tree-walk part of `find` (bypassing the
cache) returns the same handler and middleware as the cache entry. The code
violates this invariant: after registering GET `/api` and then GET `/apply`,
insertion has split the shared edge into `ap`, the static cache still answers
`/api` with handler 1, but the tree walk compares the compressed label `ap`
against the whole segment `api` (`_matchStatic` tests label equality only)
and returns no match. `find` masks the divergence because it consults the
cache first. -/
theorem c1_static_cache_disagrees_with_tree_walk :
    (emptyRouter.add "GET" "/api" [] 1).1 = none ∧
    ((emptyRouter.add "GET" "/api" [] 1).2.add "GET" "/apply" [] 2).1 = none ∧
    lookupStr "GET:/api" exApiRouter.staticRoutes = some ⟨1, []⟩ ∧
    exApiRouter.find "GET" "/api" = some ⟨1, [], []⟩ ∧
    exApiRouter.findTree "GET" "/api" = none := by
  decide

/-- C2 counterexample: registration is not atomic on failure. After GET `/a`
is registered, registering GET `//a` throws `RouteConflictError` (the
terminal tree node, shared because duplicate slashes are discarded, already
holds GET) — but the static cache has already been updated under the key
`GET://a`, so a subsequent `find` for `//a` returns the handler of the failed
registration (2) where before the failed call it returned 1 via the tree. -/
theorem c2_failed_registration_mutates_state :
    (emptyRouter.add "GET" "/a" [] 1).1 = none ∧
    (exSlashRouter.add "GET" "//a" [] 2).1 = some (.routeConflict "GET" "//a") ∧
    exSlashRouter.find "GET" "//a" = some ⟨1, [], []⟩ ∧
    (exSlashRouter.add "GET" "//a" [] 2).2.find "GET" "//a" = some ⟨2, [], []⟩ := by
  decide

/-- C2 amended: atomicity holds exactly for failures raised before any
mutation. The leading-slash validation is the first statement of `add`, so a
registration whose path does not start with `/` throws `InvalidRouteError`
and leaves the router state completely unchanged. For failures detected
later, atomicity does not hold (see the counterexample): a terminal-node
`RouteConflictError` can leave a static-cache entry behind, and an
`InvalidRouteError` raised on a parameter or wildcard segment can leave new
tree nodes and edge splits behind. -/
theorem c2_amended_leading_slash_atomicity (r : Router) (method path : String)
    (mw : List Nat) (hd : Nat) (hp : jsStartsWith path "/" = false) :
    Router.add r method path mw hd
      = (some (.invalidRoute path "Route must start with \"/\""), r) := by
  simp [Router.add, hp]

/-- Witness for C2's amended theorem at the concrete path `users`. -/
theorem c2_amended_leading_slash_atomicity_witness :
    jsStartsWith "users" "/" = false ∧
    Router.add emptyRouter "GET" "users" [] 7
      = (some (.invalidRoute "users" "Route must start with \"/\""), emptyRouter) :=
  ⟨by decide, c2_amended_leading_slash_atomicity emptyRouter "GET" "users" [] 7 (by decide)⟩

/-- C4: matching precedence and rollback. (1) Static always wins: on any tree
whose sibling static labels are distinct (an invariant of prefix-compressed
insertion), if the static-only walk finds an entry for the method, the full
search returns exactly that entry, with no parameter bound — so a static
route beats any parametric or wildcard alternative for the same concrete
path. (2) Rollback: a failed search leaves the params map a sublist of what
it received — every binding made along failed branches has been removed, so
the returned params of a successful match contain only bindings on the
successful path. (3) The spec example: with `/users/me` (static, handler 1)
and `/users/:id` (parametric, handler 2) both registered GET,
`find GET /users/me` returns handler 1 with no params and
`find GET /users/42` returns handler 2 with `id = 42`. (4) Parametric wins
over wildcard: at any node where the static-children loop fails and the
parametric block succeeds, the search result is exactly the parametric
result, for every wildcard child — the wildcard child is never consulted.
(5) The concrete counterpart: with parametric `/files/:name` (handler 5) and
wildcard `/files/*` (handler 6) both registered GET, `find GET /files/a`
returns the parametric handler 5 with `name = a`, and only the two-segment
`find GET /files/a/b`, which the parametric route cannot consume, falls
through to the wildcard. -/
theorem c4_matching_precedence_and_rollback :
    (∀ (rem : List Seg) (node : RadixNode) (m : String) (route : RouteEntry),
      wfNode node = true → staticSearch node rem m = some route →
      search node rem [] m = (some ⟨route.handler, [], route.middleware⟩, []))
    ∧ (∀ (rem : List Seg) (node : RadixNode) (p : Params) (m : String),
      (search node rem p m).1 = none → (search node rem p m).2.Sublist p)
    ∧ exUsersRouter.find "GET" "/users/me" = some ⟨1, [], []⟩
    ∧ exUsersRouter.find "GET" "/users/42" = some ⟨2, [(['i','d'], ['4','2'])], []⟩
    ∧ (∀ (l : Seg) (ch : List RadixNode) (hnd : List (String × RouteEntry))
         (pn : Option Seg) (iw : Bool) (pcOpt wcOpt : Option RadixNode) (seg : Seg)
         (rest : List Seg) (p : Params) (m : String),
        (searchChildren ch seg rest p m).1 = none →
        (searchParam pcOpt seg rest (searchChildren ch seg rest p m).2 m).1.isSome = true →
        search (.mk l ch hnd pn iw pcOpt wcOpt) (seg :: rest) p m
          = searchParam pcOpt seg rest (searchChildren ch seg rest p m).2 m)
    ∧ exPWRouter.find "GET" "/files/a" = some ⟨5, [(['n','a','m','e'], ['a'])], []⟩
    ∧ exPWRouter.find "GET" "/files/a/b" = some ⟨6, [(['*'], ['a','/','b'])], []⟩ := by
  refine ⟨static_search_wins, search_none_sublist, by decide, by decide, ?_,
    by decide, by decide⟩
  intro l ch hnd pn iw pcOpt wcOpt seg rest p m h1 h2
  rw [search_cons]
  simp [h1, h2]

/-- Witness for C4 at concrete trees: the static-only walk finds `me` and the
full search returns exactly that entry; a failed search of the same tree
returns the empty params map unchanged; and at a node carrying both a
parametric child (handler 5) and a wildcard child (handler 3), the search on
one segment returns the parametric result — the theorem's conjunct applied
with both hypotheses discharged — which evaluates to handler 5 with the
parameter bound, not the wildcard entry. -/
theorem c4_matching_precedence_and_rollback_witness :
    wfNode exMeTree = true ∧
    staticSearch exMeTree [['m','e']] "GET" = some ⟨1, []⟩ ∧
    search exMeTree [['m','e']] [] "GET" = (some ⟨1, [], []⟩, []) ∧
    (search exMeTree [['x']] [] "GET").1 = none ∧
    (search exMeTree [['x']] [] "GET").2.Sublist [] ∧
    (searchChildren [] ['a'] [] [] "GET").1 = none ∧
    (searchParam (some exPcNode) ['a'] []
      (searchChildren [] ['a'] [] [] "GET").2 "GET").1.isSome = true ∧
    search (.mk [] [] [] none false (some exPcNode) (some exWcNode)) [['a']] [] "GET"
      = searchParam (some exPcNode) ['a'] []
          (searchChildren [] ['a'] [] [] "GET").2 "GET" ∧
    search (.mk [] [] [] none false (some exPcNode) (some exWcNode)) [['a']] [] "GET"
      = (some ⟨5, [(['n'], ['a'])], []⟩, [(['n'], ['a'])]) := by
  have hw : wfNode exMeTree = true := by
    simp [exMeTree, wfNode, wfList, labelsDistinct, RadixNode.label]
  have hss : staticSearch exMeTree [['m','e']] "GET" = some ⟨1, []⟩ := by decide
  have hnone : (search exMeTree [['x']] [] "GET").1 = none := by decide
  exact ⟨hw, hss,
    c4_matching_precedence_and_rollback.1 [['m','e']] exMeTree "GET" ⟨1, []⟩ hw hss,
    hnone,
    c4_matching_precedence_and_rollback.2.1 [['x']] exMeTree [] "GET" hnone,
    by decide, by decide,
    c4_matching_precedence_and_rollback.2.2.2.2.1 [] [] [] none false
      (some exPcNode) (some exWcNode) ['a'] [] [] "GET" (by decide) (by decide),
    by decide⟩

/-- C6 counterexample: the claim says `register` throws `InvalidRouteError`
whenever a parameter segment has an empty name. Registering `/:b/:` on a
router that already has `/:a` throws `RouteConflictError` instead: the
parameter-name conflict on the first segment is detected before the empty
parameter name of the second segment is ever examined. -/
theorem c6_param_conflict_preempts_invalid :
    (emptyRouter.add "GET" "/:a" [] 1).1 = none ∧
    (exParamRouter.add "GET" "/:b/:" [] 2).1 = some (.routeConflict "GET" "/:b/:") ∧
    ∀ pth reason, (exParamRouter.add "GET" "/:b/:" [] 2).1 ≠ some (.invalidRoute pth reason) := by
  have h1 : (emptyRouter.add "GET" "/:a" [] 1).1 = none := by
    decide
  have h2 : (exParamRouter.add "GET" "/:b/:" [] 2).1 = some (.routeConflict "GET" "/:b/:") := by
    decide
  refine ⟨h1, h2, ?_⟩
  intro pth reason
  rw [h2]
  simp

/-- C6 amended: `register` throws `InvalidRouteError` when the path does not
start with `/` (this check is first, on every router state), and — on every
router state — the three example registrations `/users/:` (empty parameter
name), `/files/*/more` (wildcard not last) and `users` (no leading slash)
each throw the corresponding `InvalidRouteError`. The general "whenever"
form of the claim holds only up to pre-emption: a parameter-name conflict on
an earlier segment of the path throws `RouteConflictError` first (see the
counterexample). -/
theorem c6_amended_invalid_route_errors (r : Router) (method : String) (mw : List Nat)
    (hd : Nat) :
    (∀ path, jsStartsWith path "/" = false →
      Router.add r method path mw hd
        = (some (.invalidRoute path "Route must start with \"/\""), r))
    ∧ (Router.add r method "/users/:" mw hd).1
        = some (.invalidRoute "/users/:" "Parameter name cannot be empty")
    ∧ (Router.add r method "/files/*/more" mw hd).1
        = some (.invalidRoute "/files/*/more" "Wildcard (*) must be the last segment")
    ∧ (Router.add r method "users" mw hd).1
        = some (.invalidRoute "users" "Route must start with \"/\"") := by
  have hlead : ∀ path, jsStartsWith path "/" = false →
      Router.add r method path mw hd
        = (some (.invalidRoute path "Route must start with \"/\""), r) := by
    intro path hp
    simp [Router.add, hp]
  refine ⟨hlead, ?_, ?_, by rw [hlead "users" (by decide)]⟩
  · have hstep : (Router.add r method "/users/:" mw hd).1
        = (insertSegs r.root (splitPath "/users/:") (upperStr method) "/users/:"
            ⟨hd, mw⟩).1 := by
      simp +decide [Router.add]
    have hsplit : splitPath "/users/:" = [['u','s','e','r','s'], [':']] := by decide
    rw [hstep, hsplit]
    cases hroot : r.root with
    | mk l ch hnd pn iw pcOpt wcOpt =>
      rw [insertSegs.eq_def]
      simp only []
      exact insertStaticSegs_err [[':']] (upperStr method) "/users/:" ⟨hd, mw⟩ _
        (fun n => insertSegs_empty_param n (upperStr method) "/users/:" ⟨hd, mw⟩) _ _
  · have hstep : (Router.add r method "/files/*/more" mw hd).1
        = (insertSegs r.root (splitPath "/files/*/more") (upperStr method) "/files/*/more"
            ⟨hd, mw⟩).1 := by
      simp +decide [Router.add]
    have hsplit : splitPath "/files/*/more"
        = [['f','i','l','e','s'], ['*'], ['m','o','r','e']] := by decide
    rw [hstep, hsplit]
    cases hroot : r.root with
    | mk l ch hnd pn iw pcOpt wcOpt =>
      rw [insertSegs.eq_def]
      simp only []
      exact insertStaticSegs_err (['*'] :: [['m','o','r','e']]) (upperStr method)
        "/files/*/more" ⟨hd, mw⟩ _
        (fun n => insertSegs_wildcard_not_last n [['m','o','r','e']] (upperStr method)
          "/files/*/more" ⟨hd, mw⟩ (by simp)) _ _

/-- Witness for C6's amended theorem on a concrete empty router. -/
theorem c6_amended_invalid_route_errors_witness :
    jsStartsWith "users" "/" = false ∧
    Router.add emptyRouter "GET" "users" [] 0
      = (some (.invalidRoute "users" "Route must start with \"/\""), emptyRouter) ∧
    (Router.add emptyRouter "GET" "/users/:" [] 0).1
      = some (.invalidRoute "/users/:" "Parameter name cannot be empty") := by
  have h := c6_amended_invalid_route_errors emptyRouter "GET" [] 0
  exact ⟨by decide, h.1 "users" (by decide), h.2.1⟩

/-- C7: the claim states that after a successful registration of
`(method, path)`, a second identical registration throws
`RouteConflictError` and the route is still matchable afterwards. The
conflict part holds on this input, but matchability is lost: GET `/app/:x`
is registered and matchable, then registering GET `/apx` splits the `app`
edge into `ap`; re-registering GET `/app/:x` still throws
`RouteConflictError`, yet `find GET /app/:x` now returns no match — the
same compressed-edge search limitation as in C1 breaks the registered
parametric route. -/
theorem c7_second_add_conflicts_route_unmatchable :
    (emptyRouter.add "GET" "/app/:x" [] 1).1 = none ∧
    (emptyRouter.add "GET" "/app/:x" [] 1).2.find "GET" "/app/:x"
      = some ⟨1, [(['x'], [':', 'x'])], []⟩ ∧
    ((emptyRouter.add "GET" "/app/:x" [] 1).2.add "GET" "/apx" [] 2).1 = none ∧
    (exSplitRouter.add "GET" "/app/:x" [] 3).1 = some (.routeConflict "GET" "/app/:x") ∧
    exSplitRouter.find "GET" "/app/:x" = none ∧
    (exSplitRouter.add "GET" "/app/:x" [] 3).2.find "GET" "/app/:x" = none := by
  decide

/-- C8 counterexample: the claim says a match on a wildcard route's prefix
plus a further segment returns the wildcard handler. With `/files/*`
(handler 1) and the more specific static `/files/a` (handler 2) both
registered GET, `find GET /files/a` — the wildcard prefix plus one segment —
returns handler 2, not the wildcard handler with `* = a`. -/
theorem c8_static_sibling_beats_wildcard :
    (emptyRouter.add "GET" "/files/*" [] 1).1 = none ∧
    ((emptyRouter.add "GET" "/files/*" [] 1).2.add "GET" "/files/a" [] 2).1 = none ∧
    exFilesRouter.find "GET" "/files/a" = some ⟨2, [], []⟩ := by
  decide

/-- C8 amended: when the search reaches a node with at least one remaining
segment whose wildcard child holds an entry for the method — and the node has
no static child and no parametric child, so no more specific alternative can
take precedence — it binds `*` to all remaining segments joined with `/` and
returns the wildcard entry immediately; the result depends only on the
wildcard node's handlers map, never on its subtree, so no further recursion
happens. In particular for `/files/*` alone registered GET,
`find GET /files/a/b/c.txt` yields `* = a/b/c.txt`. -/
theorem c8_amended_wildcard_binds_remainder :
    (∀ (l : Seg) (hnd : List (String × RouteEntry)) (pn : Option Seg) (iw : Bool)
       (wc : RadixNode) (p : Params) (m : String) (seg : Seg) (rest : List Seg)
       (route : RouteEntry), lookupStr m wc.handlers = some route →
      search (.mk l [] hnd pn iw none (some wc)) (seg :: rest) p m
        = (some ⟨route.handler, setParam p ['*'] (List.intercalate ['/'] (seg :: rest)),
              route.middleware⟩,
           setParam p ['*'] (List.intercalate ['/'] (seg :: rest))))
    ∧ exWildRouter.find "GET" "/files/a/b/c.txt"
        = some ⟨9, [(['*'], "a/b/c.txt".toList)], []⟩ := by
  constructor
  · intro l hnd pn iw wc p m seg rest route hw
    simp [search, searchChildren, searchParam, searchChildrenWith, searchParamWith, wildcardStep, hw]
  · decide

/-- Witness for C8's amended theorem at a concrete wildcard node. -/
theorem c8_amended_wildcard_binds_remainder_witness :
    lookupStr "GET" exWcNode.handlers = some ⟨3, []⟩ ∧
    search (.mk [] [] [] none false none (some exWcNode)) [['x']] [] "GET"
      = (some ⟨3, [(['*'], ['x'])], []⟩, [(['*'], ['x'])]) := by
  have hl : lookupStr "GET" exWcNode.handlers = some ⟨3, []⟩ := by
    simp [exWcNode, RadixNode.handlers, lookupStr]
  have h := c8_amended_wildcard_binds_remainder.1 [] [] none false exWcNode [] "GET"
    ['x'] [] ⟨3, []⟩ hl
  refine ⟨hl, ?_⟩
  rw [h]
  decide

/-- C3 counterexample: a middleware that calls `next(err)` and then calls
`next()` again. The error callback runs, and afterwards the terminal handler
still runs — so the two are not mutually exclusive, and functions do run
after the error callback has been invoked. -/
theorem c3_counterexample_handler_runs_after_error :
    (execute [⟨[.callNext (some 5), .callNext none], .ret⟩] ⟨false, none⟩ 10).log
      = [.mwCall 0, .errorCall 5, .handlerCall]
    ∧ Event.handlerCall ∈ (execute [⟨[.callNext (some 5), .callNext none], .ret⟩]
        ⟨false, none⟩ 10).log
    ∧ Event.errorCall 5 ∈ (execute [⟨[.callNext (some 5), .callNext none], .ret⟩]
        ⟨false, none⟩ 10).log := by
  refine ⟨by decide, by decide, by decide⟩

/-- C3 amended: a single invocation of the continuation with an error present
invokes the error callback once and runs nothing else — no middleware, not
the terminal handler — leaving the cursor and the sent flag unchanged.
Mutual exclusivity over the whole run does not hold in general: a middleware
that calls its continuation again after signalling an error (see the
counterexample), or a terminal handler that throws, makes both callbacks
run. -/
theorem c3_error_invocation_is_terminal (fns : List Script) (hd : HandlerSpec)
    (fuel : Nat) (e : Nat) (s : ExecSt) :
    chainStep fns hd (fuel + 1) (.nextCall (some e)) s
      = { s with log := s.log ++ [.errorCall e] } := rfl

/-- C5: `resolveFor` returns exactly the applicable layers — every global
layer and every scoped layer whose prefix equals the request path or is a
prefix of it followed by `/` — in their single registration order, followed
by the route-level middleware in the order given; and the G, S(`/api`), R
example resolves for `/api/users` to `[G, S, R]`. -/
theorem c5_resolve_is_ordered_filter_then_route :
    (∀ (layers : List Layer) (rp : String) (rmw : List Nat),
      resolve layers rp rmw = (layers.filter (layerApplies rp)).map Layer.fn ++ rmw)
    ∧ resolve (addLayer (addLayer [] none 10) (some "/api") 20) "/api/users" [30]
        = [10, 20, 30] := by
  constructor
  · intro layers rp rmw
    simp [resolve, resolveLoop_eq_filter]
  · decide

/-- C9: when the response is already marked sent and the continuation is
invoked without an error, the executor stops silently — the state is returned
unchanged, so no middleware, no terminal handler and no error callback run
for this stop; and globally, from any sent state, no middleware invocation
and no terminal-handler invocation is ever added to the log by any further
execution (a middleware that sends and then calls its continuation therefore
causes no later middleware or handler to run). -/
theorem c9_sent_stops_silently (fns : List Script) (hd : HandlerSpec)
    (fuel : Nat) (mode : Mode) (s : ExecSt) (hs : s.sent = true) :
    chainStep fns hd fuel (.nextCall none) s = s ∧
    (chainStep fns hd fuel mode s).log.filter isInvoke = s.log.filter isInvoke := by
  refine ⟨?_, (chainStep_sent_no_invocations fns hd fuel mode s hs).2⟩
  match fuel with
  | 0 => rfl
  | n + 1 => simp [chainStep, hs]

/-- Witness for C9: a concrete sent state with a pending middleware body that
sends and then calls its continuation; the invocation log gains no middleware
or handler call. -/
theorem c9_sent_stops_silently_witness :
    (⟨1, true, [Event.mwCall 0]⟩ : ExecSt).sent = true ∧
    chainStep [⟨[.send, .callNext none], .ret⟩, ⟨[.callNext none], .ret⟩] ⟨true, none⟩ 8
        (.nextCall none) ⟨1, true, [Event.mwCall 0]⟩ = ⟨1, true, [Event.mwCall 0]⟩ ∧
    (chainStep [⟨[.send, .callNext none], .ret⟩, ⟨[.callNext none], .ret⟩] ⟨true, none⟩ 8
        (.running [.callNext none] .ret) ⟨1, true, [Event.mwCall 0]⟩).log.filter isInvoke
      = ([Event.mwCall 0] : List Event).filter isInvoke := by
  have h := c9_sent_stops_silently
    [⟨[.send, .callNext none], .ret⟩, ⟨[.callNext none], .ret⟩] ⟨true, none⟩ 8
    (.running [.callNext none] .ret) ⟨1, true, [Event.mwCall 0]⟩ (by decide)
  exact ⟨by decide, h.1, h.2⟩

/-- C10: a wildcard never matches an empty remainder. (1) When the segments
are exhausted at a node, the search result is determined by that node's own
handlers only — a wildcard child is ignored, so a match on the exact prefix
path never comes from the wildcard. (2) In any match returned by `find`, a
binding of the key `*` is always a non-empty string: the wildcard branch is
consulted only with at least one remaining segment, and segments produced by
path splitting are non-empty. -/
theorem c10_wildcard_never_empty :
    (∀ (l : Seg) (ch : List RadixNode) (hnd : List (String × RouteEntry))
       (pn : Option Seg) (iw : Bool) (pc : Option RadixNode) (w : RadixNode)
       (p : Params) (m : String),
      search (.mk l ch hnd pn iw pc (some w)) [] p m
        = search (.mk l ch hnd pn iw pc none) [] p m)
    ∧ ∀ (r : Router) (method path : String) (res : MatchResult) (v : Seg),
        r.find method path = some res → (['*'], v) ∈ res.params → v ≠ [] := by
  constructor
  · intro l ch hnd pn iw pc w p m
    rw [search_nil, search_nil]
  · intro r method path res v hfind hv
    rw [Router.find] at hfind
    cases hlk : lookupStr (upperStr method ++ ":" ++ path) r.staticRoutes with
    | some e =>
      rw [hlk] at hfind
      simp at hfind
      rw [← hfind] at hv
      simp at hv
    | none =>
      rw [hlk] at hfind
      simp at hfind
      rcases hsr : search r.root (splitPath path) [] (upperStr method) with ⟨o, q⟩
      rw [hsr] at hfind
      cases o with
      | none => simp at hfind
      | some res0 =>
        simp at hfind
        subst hfind
        exact search_star (splitPath path) (splitAux_mem_ne_nil path.data [])
          r.root [] (upperStr method) res0 q hsr (by simp) v hv

/-- Witness for C10 on the concrete wildcard router: the returned binding of
`*` is `a/b/c.txt`, which is non-empty. -/
theorem c10_wildcard_never_empty_witness :
    exWildRouter.find "GET" "/files/a/b/c.txt"
      = some ⟨9, [(['*'], "a/b/c.txt".toList)], []⟩ ∧
    "a/b/c.txt".toList ≠ [] := by
  have hf : exWildRouter.find "GET" "/files/a/b/c.txt"
      = some ⟨9, [(['*'], "a/b/c.txt".toList)], []⟩ := by
    decide
  refine ⟨hf, ?_⟩
  exact c10_wildcard_never_empty.2 exWildRouter "GET" "/files/a/b/c.txt"
    ⟨9, [(['*'], "a/b/c.txt".toList)], []⟩ "a/b/c.txt".toList hf (by decide)
